import Mathlib

/-!
# Memory limit library (`kernel/lib/memory_limit/memory_limit.cpp`)

A shallow embedding of `mem_limit_get`, `mem_limit_init` and `mem_limit_apply`
and of the structures they work on, followed by theorems about the carving of
one physical range under a running byte budget.

Machine words (`uintptr_t`, `size_t`, `uint64_t`) are natural numbers; every
subtraction and addition the source performs on them is taken modulo `2 ^ 64`.

`IoVectorWrapper` binds its `base` to `*reinterpret_cast<uintptr_t*>(iov_base)`:
the word that the caller's `iov_base` points at. The embedding therefore carries
a memory of words; a store or load through an `iov_base` that points at no word
is a fault, after which the call does not return (`none`). The words of that
memory lie outside `cfg` and the `iovs` array: an `iov_base` that points into
one of these two objects is not modelled.
-/

namespace MemoryLimit

/-! ## Data model -/

/-- Status codes returned by the library. -/
inductive mx_status_t where
  | NO_ERROR
  | ERR_INVALID_ARGS
  | ERR_NOT_SUPPORTED
  deriving DecidableEq, Repr

/-- The configuration `mem_limit_cfg_t`, with the fields the source reads and
writes: the kernel image `[kernel_base, kernel_end)`, the ramdisk
`[ramdisk_base, ramdisk_base + ramdisk_sz)` and the remaining budget
`memory_limit`. -/
structure mem_limit_cfg_t where
  kernel_base : Nat
  kernel_end : Nat
  ramdisk_base : Nat
  ramdisk_sz : Nat
  memory_limit : Nat
  deriving DecidableEq, Repr

/-- One output slot `iovec_t`: the pointer `iov_base`, held as the address it
contains, and the length `iov_len`. -/
structure iovec_t where
  iov_base : Nat
  iov_len : Nat
  deriving DecidableEq, Repr

/-- The memory outside `cfg` and the `iovs` array, as a list of words
`(address, value)`. An address that does not occur holds no word. Addresses name
whole words: two pointers refer to the same word or to separate words. -/
structure Memory where
  cells : List (Nat × Nat)
  deriving DecidableEq, Repr

/-- The value of the first word listed at address `a`, if any. -/
def lookup : List (Nat × Nat) → Nat → Option Nat
  | [], _ => none
  | e :: t, a => if e.1 = a then some e.2 else lookup t a

/-- Reading `*p` for the pointer `p = a`; `none` is a fault. -/
def Memory.load (m : Memory) (a : Nat) : Option Nat := lookup m.cells a

/-- The memory with the word at address `a`, if there is one, set to `v`. -/
def Memory.put (m : Memory) (a v : Nat) : Memory :=
  ⟨m.cells.map fun e => if e.1 = a then (a, v) else e⟩

/-- Writing `*p = v` for the pointer `p = a`; `none` is a fault. -/
def Memory.store (m : Memory) (a v : Nat) : Option Memory :=
  match m.load a with
  | none => none
  | some _ => some (m.put a v)

/-- What a call that returns leaves behind: the returned status, the
configuration behind the `cfg` pointer and the two slots behind the `iovs`
pointer (`none` for a null pointer), and the memory. -/
structure ApplyResult where
  status : mx_status_t
  cfg : Option mem_limit_cfg_t
  iovs : Option (iovec_t × iovec_t)
  mem : Memory
  deriving DecidableEq, Repr

/-! ## Machine arithmetic -/

/-- Unsigned 64-bit addition. -/
def add64 (a b : Nat) : Nat := (a + b) % 2 ^ 64

/-- Unsigned 64-bit subtraction. -/
def sub64 (a b : Nat) : Nat := (a + (2 ^ 64 - b % 2 ^ 64)) % 2 ^ 64

/-- All fields of a configuration are 64-bit values. -/
def cfg_wf (c : mem_limit_cfg_t) : Prop :=
  c.kernel_base < 2 ^ 64 ∧ c.kernel_end < 2 ^ 64 ∧ c.ramdisk_base < 2 ^ 64 ∧
    c.ramdisk_sz < 2 ^ 64 ∧ c.memory_limit < 2 ^ 64

instance (c : mem_limit_cfg_t) : Decidable (cfg_wf c) := by
  unfold cfg_wf; infer_instance

/-! ## `mem_limit_apply` -/

/-- The constructor `IoVectorWrapper(io_vector)` (lines 27-37) for a slot whose
`iov_base` holds the address `iov_base`: `base` is bound to the word at that
address and `base = 0` is stored through it. The result is the memory after the
store, `none` when the store faults; `len = 0` goes to the slot's own `iov_len`
and is set by the caller of the constructor. -/
def IoVectorWrapper (mem : Memory) (iov_base : Nat) : Option Memory :=
  mem.store iov_base 0

/-- The state `mem_limit_apply` works on once both wrappers exist: the budget
`cfg->memory_limit`, the lengths `iovs[0].iov_len` and `iovs[1].iov_len` that
`kernel_iov.len` and `ramdisk_iov.len` are bound to, the memory that
`kernel_iov.base` and `ramdisk_iov.base` refer into, and the three spans. -/
structure Frame where
  memory_limit : Nat
  kernel_len : Nat
  ramdisk_len : Nat
  mem : Memory
  k_low : Nat
  k_high : Nat
  r_high : Nat
  deriving DecidableEq, Repr

/-- Lines 134-141: the spans are initialised and the kernel is set up;
`kernel_iov.base = k_base` is a store through `kp`, the `iov_base` of slot 0. -/
def setup_kernel (kp : Nat) (s : Frame) (range_base range_end k_base k_size : Nat) :
    Option Frame :=
  match s.mem.store kp k_base with
  | none => none
  | some mem =>
    some { s with
      k_low := sub64 k_base range_base
      k_high := range_end
      mem := mem
      kernel_len := k_size
      memory_limit := sub64 s.memory_limit k_size }

/-- Lines 144-158: the ramdisk is added, truncated to the budget;
`ramdisk_iov.base = r_base` is a store through `rp`, the `iov_base` of slot 1. -/
def add_ramdisk (rp : Nat) (s : Frame) (range_end k_end r_base r_size r_end : Nat) :
    Option Frame :=
  if r_size ≠ 0 then
    let tmp := min s.memory_limit r_size
    match s.mem.store rp r_base with
    | none => none
    | some mem =>
      some { s with
        mem := mem
        ramdisk_len := tmp
        memory_limit := sub64 s.memory_limit tmp
        k_high := sub64 r_base k_end
        r_high := sub64 range_end r_end }
  else some s

/-- Lines 163-168: the kernel slot grows forward into `k_high`. -/
def grow_k_high (s : Frame) : Frame :=
  let tmp := min s.memory_limit s.k_high
  if tmp ≠ 0 then
    { s with
      kernel_len := add64 s.kernel_len tmp
      memory_limit := sub64 s.memory_limit tmp }
  else s

/-- Lines 171-178: the kernel slot grows backward into `k_low`;
`kernel_iov.base -= tmp` is a load and a store through `kp`. -/
def grow_k_low (kp : Nat) (s : Frame) : Option Frame :=
  let tmp := min s.memory_limit s.k_low
  if tmp ≠ 0 then
    match s.mem.load kp with
    | none => none
    | some base =>
      match s.mem.store kp (sub64 base tmp) with
      | none => none
      | some mem =>
        some { s with
          mem := mem
          kernel_len := add64 s.kernel_len tmp
          memory_limit := sub64 s.memory_limit tmp }
  else some s

/-- Lines 182-187: the ramdisk slot grows forward into `r_high`. -/
def grow_r_high (s : Frame) : Frame :=
  let tmp := min s.memory_limit s.r_high
  if tmp ≠ 0 then
    { s with
      ramdisk_len := add64 s.ramdisk_len tmp
      memory_limit := sub64 s.memory_limit tmp }
  else s

/-- Lines 191-198: the slots are collapsed into the kernel slot if the word
behind `kp` plus the kernel length equals the word behind `rp`;
`ramdisk_iov.base = 0` is a store through `rp`. -/
def collapse (kp rp : Nat) (s : Frame) : Option Frame :=
  match s.mem.load kp with
  | none => none
  | some kbase =>
    match s.mem.load rp with
    | none => none
    | some rbase =>
      if add64 kbase s.kernel_len = rbase then
        match s.mem.store rp 0 with
        | none => none
        | some mem =>
          some { s with
            kernel_len := add64 s.kernel_len s.ramdisk_len
            mem := mem
            ramdisk_len := 0 }
      else some s

/-- Lines 131-198: the carving of a range that holds the kernel. -/
def carve_kernel (kp rp : Nat) (s : Frame)
    (range_base range_end k_base k_size k_end r_base r_size r_end : Nat) : Option Frame :=
  match setup_kernel kp s range_base range_end k_base k_size with
  | none => none
  | some s =>
    match add_ramdisk rp s range_end k_end r_base r_size r_end with
    | none => none
    | some s =>
      match grow_k_low kp (grow_k_high s) with
      | none => none
      | some s => collapse kp rp (grow_r_high s)

/-- Lines 93-207 of `mem_limit_apply`: the part that runs once the arguments
are valid and the budget is not zero, for the slots with `iov_base` fields `kp`
and `rp`. The result holds the new budget, the two `iov_len` fields and the
memory; `none` is a fault. -/
def carve (c : mem_limit_cfg_t) (range_base range_size kp rp : Nat) (mem : Memory) :
    Option Frame :=
  -- lines 94-95: the two wrappers; each stores 0 through its pointer and zeroes
  -- its length
  match IoVectorWrapper mem kp with
  | none => none
  | some mem =>
    match IoVectorWrapper mem rp with
    | none => none
    | some mem =>
      let s : Frame := ⟨c.memory_limit, 0, 0, mem, 0, 0, 0⟩
      let range_end := add64 range_base range_size
      let k_base := c.kernel_base
      let k_size := sub64 c.kernel_end c.kernel_base
      let k_end := c.kernel_end
      let r_base := c.ramdisk_base
      let r_size := c.ramdisk_sz
      let r_end := add64 r_base r_size
      if range_size ≤ c.memory_limit then
        match s.mem.store kp range_base with
        | none => none
        | some mem =>
          some { s with
            mem := mem
            kernel_len := range_size
            memory_limit := sub64 c.memory_limit range_size }
      else if range_base ≤ k_base ∧ k_base < range_end then
        carve_kernel kp rp s range_base range_end k_base k_size k_end r_base r_size r_end
      else
        let tmp := min c.memory_limit range_size
        match s.mem.store kp range_base with
        | none => none
        | some mem =>
          some { s with
            mem := mem
            kernel_len := tmp
            memory_limit := sub64 c.memory_limit tmp }

/-- The function `mem_limit_apply(cfg, range_base, range_size, iovs, iov_cnt)`
run on the memory `mem`. The result is `none` when the call faults and does not
return. The `iov_base` fields of the slots are never assigned. -/
def mem_limit_apply (cfg : Option mem_limit_cfg_t) (range_base range_size : Nat)
    (iovs : Option (iovec_t × iovec_t)) (iov_cnt : Nat) (mem : Memory) :
    Option ApplyResult :=
  match cfg, iovs with
  | none, _ => some ⟨.ERR_INVALID_ARGS, cfg, iovs, mem⟩
  | some _, none => some ⟨.ERR_INVALID_ARGS, cfg, iovs, mem⟩
  | some c, some v =>
    if iov_cnt < 2 then some ⟨.ERR_INVALID_ARGS, cfg, iovs, mem⟩
    else if c.memory_limit = 0 then
      -- the limit has been reached: the range is skipped
      some ⟨.NO_ERROR, cfg, iovs, mem⟩
    else
      match carve c range_base range_size v.1.iov_base v.2.iov_base mem with
      | none => none
      | some s =>
        some ⟨.NO_ERROR, some { c with memory_limit := s.memory_limit },
          some (⟨v.1.iov_base, s.kernel_len⟩, ⟨v.2.iov_base, s.ramdisk_len⟩), s.mem⟩

/-- The function `mem_limit_get(limit)`; `cmdline` is the value that
`cmdline_get_uint64("kernel.memory-limit", 0)` returns and `limit` is what the
out-pointer points at (`none` for a null pointer). -/
def mem_limit_get (cmdline : Nat) (limit : Option Nat) : mx_status_t × Option Nat :=
  match limit with
  | none => (.ERR_INVALID_ARGS, none)
  | some old =>
    let _limit := cmdline
    if _limit = 0 then (.ERR_NOT_SUPPORTED, some old)
    else (.NO_ERROR, some _limit)

/-- The function `mem_limit_init(cfg)`: it hands `&cfg->memory_limit` to
`mem_limit_get`. -/
def mem_limit_init (cmdline : Nat) (cfg : Option mem_limit_cfg_t) :
    mx_status_t × Option mem_limit_cfg_t :=
  match cfg with
  | none => (.ERR_INVALID_ARGS, none)
  | some c =>
    match mem_limit_get cmdline (some c.memory_limit) with
    | (st, some l) => (st, some { c with memory_limit := l })
    | (st, none) => (st, some c)

/-- Mebibyte, the `MB` of the source. -/
def MB : Nat := 1024 * 1024

/-! ## Reading a result -/

/-- The budget `cfg->memory_limit` after a call. -/
def ApplyResult.budget (r : ApplyResult) : Nat :=
  match r.cfg with
  | some c => c.memory_limit
  | none => 0

/-- Slot 0 (`iovs[0]`) after a call: its `iov_base` pointer and its length. -/
def ApplyResult.slot0 (r : ApplyResult) : iovec_t :=
  match r.iovs with
  | some v => v.1
  | none => ⟨0, 0⟩

/-- Slot 1 (`iovs[1]`) after a call: its `iov_base` pointer and its length. -/
def ApplyResult.slot1 (r : ApplyResult) : iovec_t :=
  match r.iovs with
  | some v => v.2
  | none => ⟨0, 0⟩

/-- The base recorded for slot 0: the word behind the `iov_base` of slot 0 after
a call, where the wrapper stores it. -/
def ApplyResult.base0 (r : ApplyResult) : Option Nat := r.mem.load r.slot0.iov_base

/-- The base recorded for slot 1: the word behind the `iov_base` of slot 1 after
a call. -/
def ApplyResult.base1 (r : ApplyResult) : Option Nat := r.mem.load r.slot1.iov_base

/-- A slot that has been zeroed: a null `iov_base` and length 0. -/
def zero_iov : iovec_t := ⟨0, 0⟩

/-- A memory of two words, at the addresses 4096 and 4104; it has no word at
address 0. -/
def two_words : Memory := ⟨[(4096, 0), (4104, 0)]⟩

/-- Two slots of length 0 whose `iov_base` point at the words of `two_words`. -/
def word_slots : iovec_t × iovec_t := (⟨4096, 0⟩, ⟨4104, 0⟩)

/-- Both `iov_base` point at a word of the memory, and at separate words. -/
def slots_valid (mem : Memory) (v : iovec_t × iovec_t) : Prop :=
  mem.load v.1.iov_base ≠ none ∧ mem.load v.2.iov_base ≠ none ∧
    v.1.iov_base ≠ v.2.iov_base

instance (mem : Memory) (v : iovec_t × iovec_t) : Decidable (slots_valid mem v) := by
  unfold slots_valid; infer_instance

/-- The size `cfg->kernel_end - cfg->kernel_base` of the kernel as the code
computes it. -/
def kernel_size (c : mem_limit_cfg_t) : Nat := sub64 c.kernel_end c.kernel_base

/-! ## The boot loop -/

/-- The boot loop: the ranges `(base, size)` are passed in order to
`mem_limit_apply`, every call with the two slots `v` and `iov_cnt = 2`, on the
memory and with the budget the call before has left. The result is the final
configuration and the sum over all calls of `iovs[0].iov_len +
iovs[1].iov_len`; `none` when a call faults. -/
def apply_ranges (v : iovec_t × iovec_t) :
    List (Nat × Nat) → Memory → mem_limit_cfg_t → Option (mem_limit_cfg_t × Nat)
  | [], _, c => some (c, 0)
  | r :: rest, mem, c =>
    match mem_limit_apply (some c) r.1 r.2 (some v) 2 mem with
    | none => none
    | some res =>
      match apply_ranges v rest res.mem { c with memory_limit := res.budget } with
      | none => none
      | some out => some (out.1, res.slot0.iov_len + res.slot1.iov_len + out.2)

/-! ## The arithmetic on values

The definitions of this section are not the embedding of the code. They repeat
the arithmetic of `mem_limit_apply` on plain values, for a call whose two
`iov_base` point at separate words, so that every `base` is a variable of its
own. The theorem `carve_sim` proves that `carve` above computes exactly these
values in that case; the theorems on the code are stated on `mem_limit_apply`.
-/

namespace Values

/-- The values of the references `base` and `len` of one wrapper. -/
structure Slot where
  iov_base : Nat
  iov_len : Nat
  deriving DecidableEq, Repr

/-- The values `mem_limit_apply` works on while a range holding the kernel is
carved: the budget, the values behind the two wrappers and the three spans. -/
structure Locals where
  memory_limit : Nat
  kernel_iov : Slot
  ramdisk_iov : Slot
  k_low : Nat
  k_high : Nat
  r_high : Nat
  deriving DecidableEq, Repr

/-- Values of lines 134-141: the spans are initialised and the kernel is set up. -/
def setup_kernel (memory_limit range_base range_end k_base k_size : Nat) : Locals :=
  { memory_limit := sub64 memory_limit k_size
    kernel_iov := ⟨k_base, k_size⟩
    ramdisk_iov := ⟨0, 0⟩
    k_low := sub64 k_base range_base
    k_high := range_end
    r_high := 0 }

/-- Values of lines 144-158: the ramdisk is added, truncated to the budget. -/
def add_ramdisk (s : Locals) (range_end k_end r_base r_size r_end : Nat) : Locals :=
  if r_size ≠ 0 then
    let tmp := min s.memory_limit r_size
    { s with
      ramdisk_iov := ⟨r_base, tmp⟩
      memory_limit := sub64 s.memory_limit tmp
      k_high := sub64 r_base k_end
      r_high := sub64 range_end r_end }
  else s

/-- Values of lines 163-168: the kernel slot grows forward into `k_high`. -/
def grow_k_high (s : Locals) : Locals :=
  let tmp := min s.memory_limit s.k_high
  if tmp ≠ 0 then
    { s with
      kernel_iov := ⟨s.kernel_iov.iov_base, add64 s.kernel_iov.iov_len tmp⟩
      memory_limit := sub64 s.memory_limit tmp }
  else s

/-- Values of lines 171-178: the kernel slot grows backward into `k_low`. -/
def grow_k_low (s : Locals) : Locals :=
  let tmp := min s.memory_limit s.k_low
  if tmp ≠ 0 then
    { s with
      kernel_iov := ⟨sub64 s.kernel_iov.iov_base tmp, add64 s.kernel_iov.iov_len tmp⟩
      memory_limit := sub64 s.memory_limit tmp }
  else s

/-- Values of lines 182-187: the ramdisk slot grows forward into `r_high`. -/
def grow_r_high (s : Locals) : Locals :=
  let tmp := min s.memory_limit s.r_high
  if tmp ≠ 0 then
    { s with
      ramdisk_iov := ⟨s.ramdisk_iov.iov_base, add64 s.ramdisk_iov.iov_len tmp⟩
      memory_limit := sub64 s.memory_limit tmp }
  else s

/-- Values of lines 191-198: adjacent slots are collapsed into the kernel slot. -/
def collapse (s : Locals) : Locals :=
  if add64 s.kernel_iov.iov_base s.kernel_iov.iov_len = s.ramdisk_iov.iov_base then
    { s with
      kernel_iov := ⟨s.kernel_iov.iov_base, add64 s.kernel_iov.iov_len s.ramdisk_iov.iov_len⟩
      ramdisk_iov := ⟨0, 0⟩ }
  else s

/-- Values of lines 131-198: the carving of a range that holds the kernel. -/
def carve_kernel (memory_limit range_base range_end k_base k_size k_end r_base r_size r_end : Nat) :
    Locals :=
  let s := setup_kernel memory_limit range_base range_end k_base k_size
  let s := add_ramdisk s range_end k_end r_base r_size r_end
  let s := grow_k_high s
  let s := grow_k_low s
  let s := grow_r_high s
  collapse s

/-- Values of lines 93-207 of `mem_limit_apply`: the new budget and the values
behind both wrappers. -/
def carve (c : mem_limit_cfg_t) (range_base range_size : Nat) : Nat × Slot × Slot :=
  -- both wrappers start at `{0, 0}`; `kernel_iov` is overwritten on every path
  let ramdisk_iov : Slot := ⟨0, 0⟩
  let range_end := add64 range_base range_size
  let k_base := c.kernel_base
  let k_size := sub64 c.kernel_end c.kernel_base
  let k_end := c.kernel_end
  let r_base := c.ramdisk_base
  let r_size := c.ramdisk_sz
  let r_end := add64 r_base r_size
  if range_size ≤ c.memory_limit then
    (sub64 c.memory_limit range_size, ⟨range_base, range_size⟩, ramdisk_iov)
  else if range_base ≤ k_base ∧ k_base < range_end then
    let s := carve_kernel c.memory_limit range_base range_end k_base k_size k_end r_base r_size r_end
    (s.memory_limit, s.kernel_iov, s.ramdisk_iov)
  else
    let tmp := min c.memory_limit range_size
    (sub64 c.memory_limit tmp, ⟨range_base, tmp⟩, ramdisk_iov)

end Values

/-- The frame `s` of the code holds the values `v`: the words behind the two
`iov_base` pointers `kp` and `rp` are the two bases of `v`, and the lengths, the
budget and the spans agree. -/
structure Sim (kp rp : Nat) (s : Frame) (v : Values.Locals) : Prop where
  kbase : s.mem.load kp = some v.kernel_iov.iov_base
  rbase : s.mem.load rp = some v.ramdisk_iov.iov_base
  klen : s.kernel_len = v.kernel_iov.iov_len
  rlen : s.ramdisk_len = v.ramdisk_iov.iov_len
  limit : s.memory_limit = v.memory_limit
  low : s.k_low = v.k_low
  high : s.k_high = v.k_high
  rhigh : s.r_high = v.r_high

/-! # Theorems -/

/-! ## Machine arithmetic -/

theorem sub64_lt (a b : Nat) : sub64 a b < 2 ^ 64 := by
  unfold sub64; omega

theorem sub64_of_le (a b : Nat) (ha : a < 2 ^ 64) (h : b ≤ a) : sub64 a b = a - b := by
  unfold sub64; omega

theorem add64_of_lt (a b : Nat) (h : a + b < 2 ^ 64) : add64 a b = a + b := by
  unfold add64; omega

theorem sub64_of_gt (a b : Nat) (hb : b < 2 ^ 64) (h : a < b) :
    sub64 a b = a + 2 ^ 64 - b := by
  unfold sub64; omega

/-- Each of the four amounts taken on the kernel path is bounded by the budget
left when it is taken and by the span it is taken from; a span is taken
completely as soon as budget is left after it. -/
theorem growth_bounds (lim rds kh kl rh t g l h : Nat)
    (ht : t = if rds = 0 then 0 else min lim rds)
    (hg : g = min (lim - t) kh) (hl : l = min (lim - t - g) kl)
    (hh : h = min (lim - t - g - l) rh) :
    t + g + l + h ≤ lim ∧ (t ≤ rds ∧ g ≤ kh ∧ l ≤ kl ∧ h ≤ rh) ∧
    (t + g < lim → g = kh) ∧ (t + g + l < lim → l = kl) ∧
    (t + g + l + h < lim → h = rh) ∧ (rds ≠ 0 → t < rds → t = lim) := by
  have h1 : t ≤ lim ∧ t ≤ rds ∧ (rds ≠ 0 → t < rds → t = lim) := by
    rw [ht]
    split_ifs with hz
    · exact ⟨Nat.zero_le _, Nat.zero_le _, fun hne => absurd hz hne⟩
    · exact ⟨Nat.min_le_left _ _, Nat.min_le_right _ _, fun _ hlt => by omega⟩
  obtain ⟨h1a, h1b, h1c⟩ := h1
  clear ht
  have h2 : t + g ≤ lim ∧ g ≤ kh ∧ (t + g < lim → g = kh) := by omega
  obtain ⟨h2a, h2b, h2c⟩ := h2
  clear hg
  have h3 : t + g + l ≤ lim ∧ l ≤ kl ∧ (t + g + l < lim → l = kl) := by omega
  obtain ⟨h3a, h3b, h3c⟩ := h3
  clear hl
  have h4 : t + g + l + h ≤ lim ∧ h ≤ rh ∧ (t + g + l + h < lim → h = rh) := by omega
  exact ⟨h4.1, ⟨h1b, h2b, h3b, h4.2.1⟩, h2c, h3c, h4.2.2, h1c⟩

/-! ## The arithmetic on values -/

namespace Values

theorem add_ramdisk_eq (lim : Nat) (ki ri : Slot) (kl kh rh re ke rdb rds rde : Nat)
    (hlim : lim < 2 ^ 64) (hr : rds ≠ 0) :
    add_ramdisk ⟨lim, ki, ri, kl, kh, rh⟩ re ke rdb rds rde
      = ⟨lim - min lim rds, ki, ⟨rdb, min lim rds⟩, kl, sub64 rdb ke, sub64 re rde⟩ := by
  simp only [add_ramdisk, hr, ne_eq, not_false_eq_true, if_true]
  rw [sub64_of_le lim _ hlim (Nat.min_le_left _ _)]

theorem grow_k_high_eq (lim kb kn : Nat) (ri : Slot) (kl kh rh : Nat)
    (hlim : lim < 2 ^ 64) (hlen : kn + min lim kh < 2 ^ 64) :
    grow_k_high ⟨lim, ⟨kb, kn⟩, ri, kl, kh, rh⟩
      = ⟨lim - min lim kh, ⟨kb, kn + min lim kh⟩, ri, kl, kh, rh⟩ := by
  unfold grow_k_high
  by_cases h : min lim kh = 0
  · simp [h]
  · simp only [ne_eq, h, not_false_eq_true, if_true]
    rw [sub64_of_le lim _ hlim (Nat.min_le_left _ _), add64_of_lt _ _ hlen]

theorem grow_k_low_eq (lim kb kn : Nat) (ri : Slot) (kl kh rh : Nat)
    (hlim : lim < 2 ^ 64) (hkb : kb < 2 ^ 64) (hle : min lim kl ≤ kb)
    (hlen : kn + min lim kl < 2 ^ 64) :
    grow_k_low ⟨lim, ⟨kb, kn⟩, ri, kl, kh, rh⟩
      = ⟨lim - min lim kl, ⟨kb - min lim kl, kn + min lim kl⟩, ri, kl, kh, rh⟩ := by
  unfold grow_k_low
  by_cases h : min lim kl = 0
  · simp [h]
  · simp only [ne_eq, h, not_false_eq_true, if_true]
    rw [sub64_of_le lim _ hlim (Nat.min_le_left _ _), add64_of_lt _ _ hlen,
      sub64_of_le kb _ hkb hle]

theorem grow_r_high_eq (lim : Nat) (ki : Slot) (rdb rn kl kh rh : Nat)
    (hlim : lim < 2 ^ 64) (hlen : rn + min lim rh < 2 ^ 64) :
    grow_r_high ⟨lim, ki, ⟨rdb, rn⟩, kl, kh, rh⟩
      = ⟨lim - min lim rh, ki, ⟨rdb, rn + min lim rh⟩, kl, kh, rh⟩ := by
  unfold grow_r_high
  by_cases h : min lim rh = 0
  · simp [h]
  · simp only [ne_eq, h, not_false_eq_true, if_true]
    rw [sub64_of_le lim _ hlim (Nat.min_le_left _ _), add64_of_lt _ _ hlen]

/-- The state before the final collapse, when no slot length wraps around:
`t` bytes of ramdisk, then `g`, `l` and `h` bytes of growth. -/
theorem carve_kernel_eq (b rb re kb ks ke rdb rds rde : Nat) (t kh rh g l h : Nat)
    (ht : t = if rds = 0 then 0 else min (sub64 b ks) rds)
    (hkh : kh = if rds = 0 then re else sub64 rdb ke)
    (hrh : rh = if rds = 0 then 0 else sub64 re rde)
    (hg : g = min (sub64 b ks - t) kh)
    (hl : l = min (sub64 b ks - t - g) (sub64 kb rb))
    (hh : h = min (sub64 b ks - t - g - l) rh)
    (hkb : kb < 2 ^ 64) (hlk : l ≤ kb) (hlen : ks + g + l < 2 ^ 64)
    (hrlen : t + h < 2 ^ 64) :
    carve_kernel b rb re kb ks ke rdb rds rde
      = collapse ⟨sub64 b ks - t - g - l - h, ⟨kb - l, ks + g + l⟩,
          ⟨if rds = 0 then 0 else rdb, t + h⟩, sub64 kb rb, kh, rh⟩ := by
  have h0 := sub64_lt b ks
  unfold carve_kernel setup_kernel
  by_cases hr : rds = 0
  · simp only [hr, if_true] at ht hkh hrh ⊢
    subst ht hkh hrh
    simp only [add_ramdisk, ne_eq, not_true_eq_false, if_false, Nat.sub_zero] at *
    rw [grow_k_high_eq _ _ _ _ _ _ _ h0 (by omega)]
    rw [grow_k_low_eq _ _ _ _ _ _ _ (by omega) hkb (by omega) (by omega)]
    rw [grow_r_high_eq _ _ _ _ _ _ _ (by omega) (by omega)]
    simp only [Nat.min_zero, Nat.zero_min, Nat.add_zero, Nat.sub_zero] at *
    subst hg hl hh
    simp only [Nat.add_assoc, Nat.add_zero, Nat.sub_zero]
  · simp only [hr, if_false] at ht hkh hrh ⊢
    rw [add_ramdisk_eq _ _ _ _ _ _ _ _ _ _ _ h0 hr]
    rw [grow_k_high_eq _ _ _ _ _ _ _ (by omega) (by omega)]
    rw [grow_k_low_eq _ _ _ _ _ _ _ (by omega) hkb (by omega) (by omega)]
    rw [grow_r_high_eq _ _ _ _ _ _ _ (by omega) (by omega)]
    subst ht hkh hrh hg hl hh
    simp only [Nat.add_assoc]

/-- The collapse keeps the budget and the sum of the two slot lengths. -/
theorem collapse_sum (lim kb kn rdb rn kl kh rh : Nat) (hsum : kn + rn < 2 ^ 64) :
    (collapse ⟨lim, ⟨kb, kn⟩, ⟨rdb, rn⟩, kl, kh, rh⟩).memory_limit = lim ∧
    (collapse ⟨lim, ⟨kb, kn⟩, ⟨rdb, rn⟩, kl, kh, rh⟩).kernel_iov.iov_len
      + (collapse ⟨lim, ⟨kb, kn⟩, ⟨rdb, rn⟩, kl, kh, rh⟩).ramdisk_iov.iov_len = kn + rn := by
  unfold collapse
  by_cases h : add64 kb kn = rdb
  · simp [h, add64_of_lt _ _ hsum]
  · simp [h]

/-- One call on the kernel path with a budget that holds the kernel: the slot
lengths and the budget left add up to the budget before. -/
theorem carve_kernel_budget (b rb re kb ks ke rdb rds rde : Nat)
    (hb : b < 2 ^ 64) (hkb : kb < 2 ^ 64) (hrb : rb ≤ kb) (hk : ks ≤ b) :
    (carve_kernel b rb re kb ks ke rdb rds rde).kernel_iov.iov_len
      + (carve_kernel b rb re kb ks ke rdb rds rde).ramdisk_iov.iov_len
      + (carve_kernel b rb re kb ks ke rdb rds rde).memory_limit = b := by
  have h0 := sub64_of_le b ks hb hk
  have h1 := sub64_of_le kb rb hkb hrb
  obtain ⟨t, ht⟩ : ∃ t, t = if rds = 0 then 0 else min (sub64 b ks) rds := ⟨_, rfl⟩
  obtain ⟨kh, hkh⟩ : ∃ kh, kh = if rds = 0 then re else sub64 rdb ke := ⟨_, rfl⟩
  obtain ⟨rh, hrh⟩ : ∃ rh, rh = if rds = 0 then 0 else sub64 re rde := ⟨_, rfl⟩
  obtain ⟨g, hg⟩ : ∃ g, g = min (sub64 b ks - t) kh := ⟨_, rfl⟩
  obtain ⟨l, hl⟩ : ∃ l, l = min (sub64 b ks - t - g) (sub64 kb rb) := ⟨_, rfl⟩
  obtain ⟨h, hh⟩ : ∃ h, h = min (sub64 b ks - t - g - l) rh := ⟨_, rfl⟩
  obtain ⟨hB, ⟨-, -, b7, -⟩, -⟩ :=
    growth_bounds (sub64 b ks) rds kh (sub64 kb rb) rh t g l h ht hg hl hh
  rw [carve_kernel_eq b rb re kb ks ke rdb rds rde t kh rh g l h ht hkh hrh hg hl hh hkb
    (by clear ht hkh hrh hg hl hh; omega) (by clear ht hkh hrh hg hl hh; omega)
    (by clear ht hkh hrh hg hl hh; omega)]
  obtain ⟨c1, c2⟩ := collapse_sum (sub64 b ks - t - g - l - h) (kb - l) (ks + g + l)
    (if rds = 0 then 0 else rdb) (t + h) (sub64 kb rb) kh rh
    (by clear ht hkh hrh hg hl hh; omega)
  clear ht hkh hrh hg hl hh
  omega

/-- The path taken when the whole range fits. -/
theorem carve_whole (c : mem_limit_cfg_t) (rb rs : Nat) (h : rs ≤ c.memory_limit) :
    carve c rb rs = (sub64 c.memory_limit rs, ⟨rb, rs⟩, ⟨0, 0⟩) := by
  simp [carve, h]

/-- The path taken when the range is larger than the budget and holds the
kernel base. -/
theorem carve_kernel_path (c : mem_limit_cfg_t) (rb rs : Nat) (h : c.memory_limit < rs)
    (h1 : rb ≤ c.kernel_base) (h2 : c.kernel_base < add64 rb rs) :
    carve c rb rs =
      ((carve_kernel c.memory_limit rb (add64 rb rs) c.kernel_base
          (sub64 c.kernel_end c.kernel_base) c.kernel_end c.ramdisk_base c.ramdisk_sz
          (add64 c.ramdisk_base c.ramdisk_sz)).memory_limit,
       (carve_kernel c.memory_limit rb (add64 rb rs) c.kernel_base
          (sub64 c.kernel_end c.kernel_base) c.kernel_end c.ramdisk_base c.ramdisk_sz
          (add64 c.ramdisk_base c.ramdisk_sz)).kernel_iov,
       (carve_kernel c.memory_limit rb (add64 rb rs) c.kernel_base
          (sub64 c.kernel_end c.kernel_base) c.kernel_end c.ramdisk_base c.ramdisk_sz
          (add64 c.ramdisk_base c.ramdisk_sz)).ramdisk_iov) := by
  have h0 : ¬ rs ≤ c.memory_limit := by omega
  simp [carve, h0, h1, h2]

/-- The path taken when the range is larger than the budget and does not hold
the kernel base. -/
theorem carve_no_kernel (c : mem_limit_cfg_t) (rb rs : Nat) (h : c.memory_limit < rs)
    (h1 : ¬ (rb ≤ c.kernel_base ∧ c.kernel_base < add64 rb rs)) :
    carve c rb rs
      = (sub64 c.memory_limit (min c.memory_limit rs), ⟨rb, min c.memory_limit rs⟩, ⟨0, 0⟩) := by
  have h0 : ¬ rs ≤ c.memory_limit := by omega
  simp only [carve, h0, h1, if_false]

/-- One call with a budget that is not exhausted by the kernel: the slot
lengths and the budget left add up to the budget before. -/
theorem carve_budget (c : mem_limit_cfg_t) (rb rs : Nat) (hc : cfg_wf c)
    (hk : c.memory_limit < rs → rb ≤ c.kernel_base → c.kernel_base < rb + rs →
      kernel_size c ≤ c.memory_limit) :
    (carve c rb rs).2.1.iov_len + (carve c rb rs).2.2.iov_len + (carve c rb rs).1
      = c.memory_limit := by
  obtain ⟨hkb, -, -, -, hb⟩ := hc
  by_cases h1 : rs ≤ c.memory_limit
  · rw [carve_whole c rb rs h1, sub64_of_le _ _ hb h1]
    simp only
    omega
  · by_cases h2 : rb ≤ c.kernel_base ∧ c.kernel_base < add64 rb rs
    · have hre : add64 rb rs ≤ rb + rs := by unfold add64; exact Nat.mod_le _ _
      have hks := hk (by omega) h2.1 (by omega)
      unfold kernel_size at hks
      rw [carve_kernel_path c rb rs (by omega) h2.1 h2.2]
      simp only
      exact carve_kernel_budget c.memory_limit rb (add64 rb rs) c.kernel_base
        (sub64 c.kernel_end c.kernel_base) c.kernel_end c.ramdisk_base c.ramdisk_sz
        (add64 c.ramdisk_base c.ramdisk_sz) hb hkb h2.1 hks
    · have hm : min c.memory_limit rs = c.memory_limit := by omega
      rw [carve_no_kernel c rb rs (by omega) h2, hm, sub64_of_le _ _ hb (Nat.le_refl _)]
      simp only
      omega

/-- The result of the kernel path when no slot length wraps around, with the
final collapse resolved: either the slots are adjacent and slot 0 holds both
lengths, or both slots are returned as they were grown. -/
theorem carve_kernel_fields (b rb re kb ks ke rdb rds rde : Nat) (t kh rh g l h : Nat)
    (ht : t = if rds = 0 then 0 else min (sub64 b ks) rds)
    (hkh : kh = if rds = 0 then re else sub64 rdb ke)
    (hrh : rh = if rds = 0 then 0 else sub64 re rde)
    (hg : g = min (sub64 b ks - t) kh)
    (hl : l = min (sub64 b ks - t - g) (sub64 kb rb))
    (hh : h = min (sub64 b ks - t - g - l) rh)
    (hkb : kb < 2 ^ 64) (hlk : l ≤ kb) (hsum : ks + g + l + t + h < 2 ^ 64) :
    (carve_kernel b rb re kb ks ke rdb rds rde).memory_limit = sub64 b ks - t - g - l - h ∧
    (carve_kernel b rb re kb ks ke rdb rds rde).kernel_iov.iov_base = kb - l ∧
    ((add64 (kb - l) (ks + g + l) = (if rds = 0 then 0 else rdb) ∧
      (carve_kernel b rb re kb ks ke rdb rds rde).kernel_iov.iov_len = ks + g + l + t + h ∧
      (carve_kernel b rb re kb ks ke rdb rds rde).ramdisk_iov = ⟨0, 0⟩) ∨
     (add64 (kb - l) (ks + g + l) ≠ (if rds = 0 then 0 else rdb) ∧
      (carve_kernel b rb re kb ks ke rdb rds rde).kernel_iov.iov_len = ks + g + l ∧
      (carve_kernel b rb re kb ks ke rdb rds rde).ramdisk_iov
        = ⟨if rds = 0 then 0 else rdb, t + h⟩)) := by
  rw [carve_kernel_eq b rb re kb ks ke rdb rds rde t kh rh g l h ht hkh hrh hg hl hh hkb hlk
    (by omega) (by omega)]
  unfold collapse
  by_cases hm : add64 (kb - l) (ks + g + l) = (if rds = 0 then 0 else rdb)
  · simp only [hm, if_true, true_and, ne_eq, not_true_eq_false, false_and, or_false]
    rw [add64_of_lt _ _ (by omega)]
    simp only [Nat.add_assoc, and_self]
  · simp only [hm, if_false, ne_eq, not_false_eq_true, true_and, false_and, false_or, and_self]

/-- Slot 0 of the kernel path covers the kernel when the kernel base lies in
the range and either the budget holds the kernel or a ramdisk follows the kernel
inside the range. -/
theorem carve_kernel_covers (c : mem_limit_cfg_t) (rb rs : Nat) (hc : cfg_wf c)
    (hb : c.memory_limit ≠ 0) (h1 : rb ≤ c.kernel_base) (h3 : c.kernel_end ≤ rb + rs)
    (hnw : rb + rs < 2 ^ 64)
    (hfit : kernel_size c ≤ c.memory_limit ∨
      (c.kernel_base ≤ c.kernel_end ∧ c.ramdisk_sz ≠ 0 ∧ c.kernel_end ≤ c.ramdisk_base ∧
        c.ramdisk_base + c.ramdisk_sz ≤ rb + rs)) :
    (carve_kernel c.memory_limit rb (add64 rb rs) c.kernel_base
        (sub64 c.kernel_end c.kernel_base) c.kernel_end c.ramdisk_base c.ramdisk_sz
        (add64 c.ramdisk_base c.ramdisk_sz)).kernel_iov.iov_base ≤ c.kernel_base ∧
    c.kernel_end ≤
      (carve_kernel c.memory_limit rb (add64 rb rs) c.kernel_base
        (sub64 c.kernel_end c.kernel_base) c.kernel_end c.ramdisk_base c.ramdisk_sz
        (add64 c.ramdisk_base c.ramdisk_sz)).kernel_iov.iov_base +
      (carve_kernel c.memory_limit rb (add64 rb rs) c.kernel_base
        (sub64 c.kernel_end c.kernel_base) c.kernel_end c.ramdisk_base c.ramdisk_sz
        (add64 c.ramdisk_base c.ramdisk_sz)).kernel_iov.iov_len := by
  obtain ⟨kb, ke, rdb, rds, b⟩ := c
  obtain ⟨hkb, hke, hrdb, hrds, hbw⟩ := hc
  simp only [kernel_size] at hkb hke hrdb hrds hbw hb h1 h3 hfit ⊢
  have hre : add64 rb rs = rb + rs := add64_of_lt _ _ hnw
  have hkl : sub64 kb rb = kb - rb := sub64_of_le _ _ hkb h1
  have hcov : ke ≤ kb + sub64 ke kb := by unfold sub64; omega
  have hord : kb ≤ ke → sub64 ke kb = ke - kb := fun h => sub64_of_le _ _ hke h
  rw [hre]
  generalize sub64 ke kb = ks at hfit hcov hord ⊢
  obtain ⟨t, ht⟩ : ∃ t, t = if rds = 0 then 0 else min (sub64 b ks) rds := ⟨_, rfl⟩
  obtain ⟨kh, hkh⟩ : ∃ kh, kh = if rds = 0 then rb + rs else sub64 rdb ke := ⟨_, rfl⟩
  obtain ⟨rh, hrh⟩ :
    ∃ rh, rh = if rds = 0 then 0 else sub64 (rb + rs) (add64 rdb rds) := ⟨_, rfl⟩
  obtain ⟨g, hg⟩ : ∃ g, g = min (sub64 b ks - t) kh := ⟨_, rfl⟩
  obtain ⟨l, hl⟩ : ∃ l, l = min (sub64 b ks - t - g) (sub64 kb rb) := ⟨_, rfl⟩
  obtain ⟨h, hh⟩ : ∃ h, h = min (sub64 b ks - t - g - l) rh := ⟨_, rfl⟩
  have hlim := sub64_lt b ks
  obtain ⟨hB, ⟨b5, b6, b7, b8⟩, -⟩ :=
    growth_bounds (sub64 b ks) rds kh (sub64 kb rb) rh t g l h ht hg hl hh
  have hsum : ks + g + l + t + h < 2 ^ 64 := by
    rcases hfit with hf | ⟨ho, hr0, hr1, hr2⟩
    · have := sub64_of_le b ks hbw hf
      clear ht hkh hrh hg hl hh
      omega
    · have e1 : sub64 rdb ke = rdb - ke := sub64_of_le _ _ hrdb hr1
      have e2 : add64 rdb rds = rdb + rds := add64_of_lt _ _ (by omega)
      have e3 : sub64 (rb + rs) (rdb + rds) = rb + rs - (rdb + rds) :=
        sub64_of_le _ _ hnw hr2
      have e4 := hord ho
      rw [e2, e3] at hrh
      simp only [hr0, if_false] at hkh hrh
      clear ht hg hl hh
      omega
  have hlk : l ≤ kb := by clear ht hkh hrh hg hl hh; omega
  obtain ⟨f1, f2, f3⟩ := carve_kernel_fields b rb (rb + rs) kb ks ke rdb rds
    (add64 rdb rds) t kh rh g l h ht hkh hrh hg hl hh hkb hlk hsum
  clear ht hkh hrh hg hl hh hfit
  rcases f3 with ⟨-, f4, -⟩ | ⟨-, f4, -⟩ <;> omega

/-- The kernel path when the budget is smaller than the kernel and the range is
laid out as the code expects (no ramdisk and `kernel.end + range.size < 2^64`,
or a ramdisk after the kernel inside the range): slot 0 covers the kernel and
the budget left is larger than the budget before. -/
theorem carve_kernel_underflow (rb rs kb ke rdb rds b : Nat)
    (hrdb : rdb < 2 ^ 64) (h1 : rb ≤ kb) (h2 : kb < ke) (h3 : ke ≤ rb + rs)
    (hnw : rb + rs < 2 ^ 64) (hb : 0 < b) (hbk : b < ke - kb)
    (hlay : (rds = 0 ∧ ke + rs < 2 ^ 64) ∨
      (rds ≠ 0 ∧ ke ≤ rdb ∧ rdb + rds ≤ rb + rs)) :
    (carve_kernel b rb (rb + rs) kb (ke - kb) ke rdb rds (add64 rdb rds)).kernel_iov.iov_base
      ≤ kb ∧
    ke ≤ (carve_kernel b rb (rb + rs) kb (ke - kb) ke rdb rds
          (add64 rdb rds)).kernel_iov.iov_base
        + (carve_kernel b rb (rb + rs) kb (ke - kb) ke rdb rds
          (add64 rdb rds)).kernel_iov.iov_len ∧
    b < (carve_kernel b rb (rb + rs) kb (ke - kb) ke rdb rds (add64 rdb rds)).memory_limit := by
  obtain ⟨kl, rfl⟩ : ∃ kl, kb = rb + kl := ⟨kb - rb, by omega⟩
  obtain ⟨k, rfl⟩ : ∃ k, ke = rb + kl + k := ⟨ke - (rb + kl), by omega⟩
  have hkk : rb + kl + k - (rb + kl) = k := by omega
  rw [hkk] at hbk ⊢
  have e0 : sub64 b k = b + 2 ^ 64 - k := sub64_of_gt _ _ (by omega) hbk
  have e2 : sub64 (rb + kl) rb = kl := by
    rw [sub64_of_le _ _ (by omega) (by omega)]; omega
  obtain ⟨lim, hlim⟩ : ∃ lim, lim = sub64 b k := ⟨_, rfl⟩
  have hlimk : lim + k = b + 2 ^ 64 := by omega
  obtain ⟨t, ht⟩ : ∃ t, t = if rds = 0 then 0 else min lim rds := ⟨_, rfl⟩
  obtain ⟨kh, hkh⟩ : ∃ kh, kh = if rds = 0 then rb + rs else sub64 rdb (rb + kl + k) :=
    ⟨_, rfl⟩
  obtain ⟨rh, hrh⟩ :
    ∃ rh, rh = if rds = 0 then 0 else sub64 (rb + rs) (add64 rdb rds) := ⟨_, rfl⟩
  obtain ⟨g, hg⟩ : ∃ g, g = min (lim - t) kh := ⟨_, rfl⟩
  obtain ⟨l, hl⟩ : ∃ l, l = min (lim - t - g) kl := ⟨_, rfl⟩
  obtain ⟨h, hh⟩ : ∃ h, h = min (lim - t - g - l) rh := ⟨_, rfl⟩
  obtain ⟨hB, ⟨b5, b6, b7, b8⟩, -⟩ := growth_bounds lim rds kh kl rh t g l h ht hg hl hh
  have hub : k + g + l + t + h ≤ rb + kl + k + rs ∧
      (rds ≠ 0 → k + g + l + t + h ≤ rs) := by
    rcases hlay with ⟨hr0, -⟩ | ⟨hr0, hr1, hr2⟩
    · simp only [hr0, if_true] at ht hkh hrh
      clear hg hl hh
      omega
    · have e1 : sub64 rdb (rb + kl + k) = rdb - (rb + kl + k) :=
        sub64_of_le _ _ hrdb hr1
      have e3 : add64 rdb rds = rdb + rds := add64_of_lt _ _ (by omega)
      have e4 : sub64 (rb + rs) (rdb + rds) = rb + rs - (rdb + rds) :=
        sub64_of_le _ _ hnw hr2
      rw [e3, e4] at hrh
      rw [e1] at hkh
      simp only [hr0, if_false] at hkh hrh
      clear ht hg hl hh
      omega
  have hsum : k + g + l + t + h < 2 ^ 64 := by
    rcases hlay with ⟨hr0, hr1⟩ | ⟨hr0, hr1, hr2⟩
    · clear ht hkh hrh hg hl hh
      omega
    · have := hub.2 hr0
      clear ht hkh hrh hg hl hh
      omega
  have hfin : b + (k + g + l + t + h) < 2 ^ 64 + k := by
    rcases hlay with ⟨hr0, hr1⟩ | ⟨hr0, hr1, hr2⟩
    · clear ht hkh hrh hg hl hh
      omega
    · have := hub.2 hr0
      clear ht hkh hrh hg hl hh
      omega
  obtain ⟨f1, f2, f3⟩ := carve_kernel_fields b rb (rb + rs) (rb + kl) k (rb + kl + k)
    rdb rds (add64 rdb rds) t kh rh g l h (by rw [← hlim]; exact ht) hkh hrh
    (by rw [← hlim]; exact hg) (by rw [← hlim, e2]; exact hl) (by rw [← hlim]; exact hh)
    (by omega) (by omega) hsum
  rw [← hlim] at f1
  clear ht hkh hrh hg hl hh hlay hub e0 e2 hlim
  rcases f3 with ⟨-, f4, -⟩ | ⟨-, f4, -⟩ <;> omega

/-- A slot is determined by its base and its length. -/
theorem iovec_eq (a : Slot) (x y : Nat) (h1 : a.iov_base = x) (h2 : a.iov_len = y) :
    a = ⟨x, y⟩ := by
  cases a
  simp only [Slot.mk.injEq]
  exact ⟨h1, h2⟩

/-- The values of a call on the kernel path with a ramdisk after the kernel
inside the range and a budget that holds the kernel, in closed form: `t` bytes
of ramdisk, then `g`, `l` and `h` bytes of growth. -/
theorem carve_with_ramdisk (c : mem_limit_cfg_t) (rb rs : Nat) (k t g l h : Nat)
    (hb : 0 < c.memory_limit) (hrs : c.memory_limit < rs)
    (h1 : rb ≤ c.kernel_base) (h2 : c.kernel_base < c.kernel_end)
    (h3 : c.kernel_end ≤ c.ramdisk_base) (hr : 0 < c.ramdisk_sz)
    (h4 : c.ramdisk_base + c.ramdisk_sz ≤ rb + rs) (hnw : rb + rs < 2 ^ 64)
    (hk : k = c.kernel_end - c.kernel_base) (hkb : k ≤ c.memory_limit)
    (ht : t = min (c.memory_limit - k) c.ramdisk_sz)
    (hg : g = min (c.memory_limit - k - t) (c.ramdisk_base - c.kernel_end))
    (hl : l = min (c.memory_limit - k - t - g) (c.kernel_base - rb))
    (hh : h = min (c.memory_limit - k - t - g - l)
      (rb + rs - (c.ramdisk_base + c.ramdisk_sz))) :
    carve c rb rs
      = (if c.kernel_end + g = c.ramdisk_base
          then (c.memory_limit - k - t - g - l - h,
            ⟨c.kernel_base - l, k + g + l + t + h⟩, ⟨0, 0⟩)
          else (c.memory_limit - k - t - g - l - h,
            ⟨c.kernel_base - l, k + g + l⟩, ⟨c.ramdisk_base, t + h⟩)) := by
  obtain ⟨kb, ke, rdb, rds, b⟩ := c
  simp only at hb hrs h1 h2 h3 hr h4 hk hkb ht hg hl hh ⊢
  have hre : add64 rb rs = rb + rs := add64_of_lt _ _ hnw
  have hks : sub64 ke kb = k := by rw [hk]; exact sub64_of_le _ _ (by omega) (by omega)
  have hrde : add64 rdb rds = rdb + rds := add64_of_lt _ _ (by omega)
  have e0 : sub64 b k = b - k := sub64_of_le _ _ (by omega) hkb
  have e1 : sub64 rdb ke = rdb - ke := sub64_of_le _ _ (by omega) h3
  have e2 : sub64 kb rb = kb - rb := sub64_of_le _ _ (by omega) h1
  have e3 : sub64 (rb + rs) (rdb + rds) = rb + rs - (rdb + rds) := sub64_of_le _ _ hnw h4
  have hr0 : rds ≠ 0 := by omega
  have bt : t ≤ rds := by rw [ht]; exact Nat.min_le_right _ _
  have bg : g ≤ rdb - ke := by rw [hg]; exact Nat.min_le_right _ _
  have bl : l ≤ kb - rb := by rw [hl]; exact Nat.min_le_right _ _
  have bh : h ≤ rb + rs - (rdb + rds) := by rw [hh]; exact Nat.min_le_right _ _
  have hlk : l ≤ kb := by omega
  have hsum : k + g + l + t + h < 2 ^ 64 := by clear ht hg hl hh; omega
  have hadj : add64 (kb - l) (k + g + l) = ke + g := by
    have hlt : kb - l + (k + g + l) < 2 ^ 64 := by clear ht hg hl hh; omega
    rw [add64_of_lt _ _ hlt]
    clear ht hg hl hh
    omega
  rw [carve_kernel_path _ rb rs hrs h1 (by simp only; omega)]
  simp only [hre, hks, hrde]
  obtain ⟨f1, f2, f3⟩ := carve_kernel_fields b rb (rb + rs) kb k ke rdb rds (rdb + rds)
    t (rdb - ke) (rb + rs - (rdb + rds)) g l h
    (by simp only [hr0, if_false, e0]; exact ht) (by simp only [hr0, if_false, e1])
    (by simp only [hr0, if_false, e3]) (by rw [e0]; exact hg) (by rw [e0, e2]; exact hl)
    (by rw [e0]; exact hh) (by omega) hlk hsum
  generalize carve_kernel b rb (rb + rs) kb k ke rdb rds (rdb + rds) = S at f1 f2 f3 ⊢
  simp only [hr0, if_false, e0] at f1 f2 f3
  rw [hadj] at f3
  rcases f3 with ⟨m, f4, f5⟩ | ⟨m, f4, f5⟩
  · rw [f1, iovec_eq S.kernel_iov _ _ f2 f4, f5]
    simp only [m, if_true]
  · rw [f1, iovec_eq S.kernel_iov _ _ f2 f4, f5]
    simp only [m, if_false]

end Values

/-! ## Memory -/

theorem lookup_map_same (l : List (Nat × Nat)) (a v : Nat) :
    lookup (l.map fun e => if e.1 = a then (a, v) else e) a
      = (lookup l a).map fun _ => v := by
  induction l with
  | nil => rfl
  | cons e t ih =>
    by_cases h : e.1 = a
    · simp [lookup, h]
    · simp [lookup, h, ih]

theorem lookup_map_other (l : List (Nat × Nat)) (a b v : Nat) (hb : b ≠ a) :
    lookup (l.map fun e => if e.1 = a then (a, v) else e) b = lookup l b := by
  induction l with
  | nil => rfl
  | cons e t ih =>
    by_cases h : e.1 = a
    · have h1 : ¬ a = b := fun h2 => hb h2.symm
      have h2 : ¬ e.1 = b := fun h3 => hb (h3.symm.trans h)
      simp [lookup, h, h1, h2, ih]
    · by_cases h3 : e.1 = b
      · simp [lookup, h, h3, hb]
      · simp [lookup, h, h3, ih]

/-- A store through a pointer that points at a word succeeds. -/
theorem store_of_load (m : Memory) (a v x : Nat) (h : m.load a = some x) :
    m.store a v = some (m.put a v) := by
  simp [Memory.store, h]

/-- A store through a pointer that points at no word faults. -/
theorem store_of_none (m : Memory) (a v : Nat) (h : m.load a = none) :
    m.store a v = none := by
  simp [Memory.store, h]

/-- After a store the word holds the value stored. -/
theorem load_put_same (m : Memory) (a v x : Nat) (h : m.load a = some x) :
    (m.put a v).load a = some v := by
  unfold Memory.load at h ⊢
  simp only [Memory.put, lookup_map_same, h, Option.map_some']

/-- A store leaves the other words alone. -/
theorem load_put_other (m : Memory) (a b v : Nat) (hb : b ≠ a) :
    (m.put a v).load b = m.load b := by
  unfold Memory.load
  simp only [Memory.put, lookup_map_other _ _ _ _ hb]

/-! ## The code computes the values when both pointers are valid and separate -/

theorem sim_setup_kernel (kp rp : Nat) (s : Frame) (x : Nat) (rb re kb ks : Nat)
    (hne : kp ≠ rp) (hk : s.mem.load kp = some x) (hr : s.mem.load rp = some 0)
    (hl : s.ramdisk_len = 0) (hrh : s.r_high = 0) :
    ∃ s1, setup_kernel kp s rb re kb ks = some s1 ∧
      Sim kp rp s1 (Values.setup_kernel s.memory_limit rb re kb ks) := by
  simp only [setup_kernel, store_of_load _ _ _ _ hk]
  refine ⟨_, rfl, ?_⟩
  constructor
  · exact load_put_same _ _ _ _ hk
  · simp only [Values.setup_kernel]
    rw [load_put_other _ _ _ _ (Ne.symm hne)]
    exact hr
  · rfl
  · exact hl
  · rfl
  · rfl
  · rfl
  · exact hrh

theorem sim_add_ramdisk (kp rp : Nat) (s : Frame) (v : Values.Locals)
    (re ke rdb rds rde : Nat) (hne : kp ≠ rp) (h : Sim kp rp s v) :
    ∃ s1, add_ramdisk rp s re ke rdb rds rde = some s1 ∧
      Sim kp rp s1 (Values.add_ramdisk v re ke rdb rds rde) := by
  by_cases hr : rds = 0
  · refine ⟨s, by simp [add_ramdisk, hr], ?_⟩
    simp only [Values.add_ramdisk, hr, ne_eq, not_true_eq_false, if_false]
    exact h
  · simp only [add_ramdisk, hr, ne_eq, not_false_eq_true, if_true,
      store_of_load _ _ _ _ h.rbase, Values.add_ramdisk]
    refine ⟨_, rfl, ?_⟩
    constructor
    · simp only
      rw [load_put_other _ _ _ _ hne]
      exact h.kbase
    · exact load_put_same _ _ _ _ h.rbase
    · exact h.klen
    · simp only [h.limit]
    · simp only [h.limit]
    · exact h.low
    · rfl
    · rfl

theorem sim_grow_k_high (kp rp : Nat) (s : Frame) (v : Values.Locals) (h : Sim kp rp s v) :
    Sim kp rp (grow_k_high s) (Values.grow_k_high v) := by
  unfold grow_k_high Values.grow_k_high
  simp only [h.limit, h.high]
  by_cases ht : min v.memory_limit v.k_high = 0
  · simp only [ht, ne_eq, not_true_eq_false, if_false]
    exact h
  · simp only [ht, ne_eq, not_false_eq_true, if_true]
    exact ⟨h.kbase, h.rbase, by simp only [h.klen], h.rlen, rfl, h.low, rfl, h.rhigh⟩

theorem sim_grow_r_high (kp rp : Nat) (s : Frame) (v : Values.Locals) (h : Sim kp rp s v) :
    Sim kp rp (grow_r_high s) (Values.grow_r_high v) := by
  unfold grow_r_high Values.grow_r_high
  simp only [h.limit, h.rhigh]
  by_cases ht : min v.memory_limit v.r_high = 0
  · simp only [ht, ne_eq, not_true_eq_false, if_false]
    exact h
  · simp only [ht, ne_eq, not_false_eq_true, if_true]
    exact ⟨h.kbase, h.rbase, h.klen, by simp only [h.rlen], rfl, h.low, h.high, rfl⟩

theorem sim_grow_k_low (kp rp : Nat) (s : Frame) (v : Values.Locals) (hne : kp ≠ rp)
    (h : Sim kp rp s v) :
    ∃ s1, grow_k_low kp s = some s1 ∧ Sim kp rp s1 (Values.grow_k_low v) := by
  unfold grow_k_low Values.grow_k_low
  simp only [h.limit, h.low]
  by_cases ht : min v.memory_limit v.k_low = 0
  · simp only [ht, ne_eq, not_true_eq_false, if_false]
    exact ⟨s, rfl, h⟩
  · simp only [ht, ne_eq, not_false_eq_true, if_true, h.kbase,
      store_of_load _ _ _ _ h.kbase]
    refine ⟨_, rfl, ?_⟩
    constructor
    · exact load_put_same _ _ _ _ h.kbase
    · simp only
      rw [load_put_other _ _ _ _ (Ne.symm hne)]
      exact h.rbase
    · simp only [h.klen]
    · exact h.rlen
    · rfl
    · rfl
    · exact h.high
    · exact h.rhigh

theorem sim_collapse (kp rp : Nat) (s : Frame) (v : Values.Locals) (hne : kp ≠ rp)
    (h : Sim kp rp s v) :
    ∃ s1, collapse kp rp s = some s1 ∧ Sim kp rp s1 (Values.collapse v) := by
  unfold collapse Values.collapse
  simp only [h.kbase, h.rbase, h.klen]
  by_cases hc : add64 v.kernel_iov.iov_base v.kernel_iov.iov_len = v.ramdisk_iov.iov_base
  · simp only [hc, if_true, store_of_load _ _ _ _ h.rbase]
    refine ⟨_, rfl, ?_⟩
    constructor
    · simp only
      rw [load_put_other _ _ _ _ hne]
      exact h.kbase
    · exact load_put_same _ _ _ _ h.rbase
    · simp only [h.klen, h.rlen]
    · rfl
    · exact h.limit
    · exact h.low
    · exact h.high
    · exact h.rhigh
  · simp only [hc, if_false]
    exact ⟨s, rfl, h⟩

theorem sim_carve_kernel (kp rp : Nat) (s : Frame) (x : Nat)
    (rb re kb ks ke rdb rds rde : Nat) (hne : kp ≠ rp) (hk : s.mem.load kp = some x)
    (hr : s.mem.load rp = some 0) (hl : s.ramdisk_len = 0) (hrh : s.r_high = 0) :
    ∃ s1, carve_kernel kp rp s rb re kb ks ke rdb rds rde = some s1 ∧
      Sim kp rp s1 (Values.carve_kernel s.memory_limit rb re kb ks ke rdb rds rde) := by
  obtain ⟨s1, e1, h1⟩ := sim_setup_kernel kp rp s x rb re kb ks hne hk hr hl hrh
  obtain ⟨s2, e2, h2⟩ := sim_add_ramdisk kp rp s1 _ re ke rdb rds rde hne h1
  obtain ⟨s3, e3, h3⟩ := sim_grow_k_low kp rp (grow_k_high s2) _ hne
    (sim_grow_k_high kp rp s2 _ h2)
  obtain ⟨s4, e4, h4⟩ := sim_collapse kp rp (grow_r_high s3) _ hne
    (sim_grow_r_high kp rp s3 _ h3)
  refine ⟨s4, ?_, h4⟩
  simp only [carve_kernel, e1, e2, e3, e4]

/-- The code on two valid, separate pointers: the call of `carve` returns, the
budget and the two lengths are the values of `Values.carve`, and the words
behind the two pointers are its two bases. -/
theorem carve_sim (c : mem_limit_cfg_t) (rb rs kp rp : Nat) (mem : Memory)
    (hk : mem.load kp ≠ none) (hr : mem.load rp ≠ none) (hne : kp ≠ rp) :
    ∃ s, carve c rb rs kp rp mem = some s ∧
      s.memory_limit = (Values.carve c rb rs).1 ∧
      s.kernel_len = (Values.carve c rb rs).2.1.iov_len ∧
      s.ramdisk_len = (Values.carve c rb rs).2.2.iov_len ∧
      s.mem.load kp = some (Values.carve c rb rs).2.1.iov_base ∧
      s.mem.load rp = some (Values.carve c rb rs).2.2.iov_base := by
  obtain ⟨x, hx⟩ := Option.ne_none_iff_exists'.mp hk
  obtain ⟨y, hy⟩ := Option.ne_none_iff_exists'.mp hr
  have m1 : (mem.put kp 0).load kp = some 0 := load_put_same _ _ _ _ hx
  have m2 : (mem.put kp 0).load rp = some y := by
    rw [load_put_other _ _ _ _ (Ne.symm hne)]; exact hy
  have m3 : ((mem.put kp 0).put rp 0).load rp = some 0 := load_put_same _ _ _ _ m2
  have m4 : ((mem.put kp 0).put rp 0).load kp = some 0 := by
    rw [load_put_other _ _ _ _ hne]; exact m1
  have w1 : IoVectorWrapper mem kp = some (mem.put kp 0) := store_of_load _ _ _ _ hx
  have w2 : IoVectorWrapper (mem.put kp 0) rp = some ((mem.put kp 0).put rp 0) :=
    store_of_load _ _ _ _ m2
  have st : ∀ v, ((mem.put kp 0).put rp 0).store kp v
      = some (((mem.put kp 0).put rp 0).put kp v) := fun v => store_of_load _ _ _ _ m4
  have l1 : ∀ v, (((mem.put kp 0).put rp 0).put kp v).load kp = some v :=
    fun v => load_put_same _ _ _ _ m4
  have l2 : ∀ v, (((mem.put kp 0).put rp 0).put kp v).load rp = some 0 := fun v => by
    rw [load_put_other _ _ _ _ (Ne.symm hne)]; exact m3
  by_cases h1 : rs ≤ c.memory_limit
  · rw [Values.carve_whole c rb rs h1]
    simp only [carve, w1, w2, h1, if_true, st]
    exact ⟨_, rfl, rfl, rfl, rfl, l1 _, l2 _⟩
  · by_cases h2 : rb ≤ c.kernel_base ∧ c.kernel_base < add64 rb rs
    · rw [Values.carve_kernel_path c rb rs (by omega) h2.1 h2.2]
      obtain ⟨s1, e1, hs⟩ := sim_carve_kernel kp rp
        ⟨c.memory_limit, 0, 0, (mem.put kp 0).put rp 0, 0, 0, 0⟩ 0 rb (add64 rb rs)
        c.kernel_base (sub64 c.kernel_end c.kernel_base) c.kernel_end c.ramdisk_base
        c.ramdisk_sz (add64 c.ramdisk_base c.ramdisk_sz) hne m4 m3 rfl rfl
      simp only [carve, w1, w2, h1, h2, if_false, if_true, and_self]
      simp only at hs
      exact ⟨s1, e1, hs.limit, hs.klen, hs.rlen, hs.kbase, hs.rbase⟩
    · rw [Values.carve_no_kernel c rb rs (by omega) h2]
      simp only [carve, w1, w2, h1, h2, if_false, st]
      exact ⟨_, rfl, rfl, rfl, rfl, l1 _, l2 _⟩

/-- A pointer that points at no word makes `carve` fault in one of the two
wrapper constructors. -/
theorem carve_fault (c : mem_limit_cfg_t) (rb rs kp rp : Nat) (mem : Memory)
    (h : mem.load kp = none ∨ mem.load rp = none) :
    carve c rb rs kp rp mem = none := by
  by_cases hk : mem.load kp = none
  · simp only [carve, IoVectorWrapper, store_of_none _ _ _ hk]
  · have hr : mem.load rp = none := by
      rcases h with h | h
      · exact absurd h hk
      · exact h
    obtain ⟨x, hx⟩ := Option.ne_none_iff_exists'.mp hk
    have hne : rp ≠ kp := fun e => by rw [e, hx] at hr; exact absurd hr (by simp)
    have m2 : (mem.put kp 0).load rp = none := by
      rw [load_put_other _ _ _ _ hne]; exact hr
    simp only [carve, IoVectorWrapper, store_of_load _ _ _ _ hx, store_of_none _ _ _ m2]

/-- A call with valid arguments once the budget is zero returns before anything
is stored. -/
theorem apply_zero (c : mem_limit_cfg_t) (rb rs : Nat) (v : iovec_t × iovec_t)
    (cnt : Nat) (mem : Memory) (hcnt : 2 ≤ cnt) (hb : c.memory_limit = 0) :
    mem_limit_apply (some c) rb rs (some v) cnt mem = some ⟨.NO_ERROR, some c, some v, mem⟩ := by
  have h : ¬ cnt < 2 := by omega
  simp [mem_limit_apply, h, hb]

/-- A call with valid arguments, a budget that is not zero and an `iov_base`
that points at no word faults. -/
theorem apply_fault (c : mem_limit_cfg_t) (rb rs : Nat) (v : iovec_t × iovec_t)
    (cnt : Nat) (mem : Memory) (hcnt : 2 ≤ cnt) (hb : c.memory_limit ≠ 0)
    (h : mem.load v.1.iov_base = none ∨ mem.load v.2.iov_base = none) :
    mem_limit_apply (some c) rb rs (some v) cnt mem = none := by
  have h2 : ¬ cnt < 2 := by omega
  simp only [mem_limit_apply, h2, hb, if_false, carve_fault c rb rs _ _ mem h]

/-- A call with valid arguments, a budget that is not zero and two `iov_base`
that point at separate words: the call returns `NO_ERROR`, the `iov_base`
fields are as before, the budget and the lengths are the values of
`Values.carve` and the words behind the two pointers are its bases. -/
theorem apply_valid (c : mem_limit_cfg_t) (rb rs : Nat) (v : iovec_t × iovec_t)
    (cnt : Nat) (mem : Memory) (hcnt : 2 ≤ cnt) (hb : c.memory_limit ≠ 0)
    (hv : slots_valid mem v) :
    ∃ r, mem_limit_apply (some c) rb rs (some v) cnt mem = some r ∧
      r.status = .NO_ERROR ∧
      r.cfg = some { c with memory_limit := (Values.carve c rb rs).1 } ∧
      r.slot0 = ⟨v.1.iov_base, (Values.carve c rb rs).2.1.iov_len⟩ ∧
      r.slot1 = ⟨v.2.iov_base, (Values.carve c rb rs).2.2.iov_len⟩ ∧
      r.base0 = some (Values.carve c rb rs).2.1.iov_base ∧
      r.base1 = some (Values.carve c rb rs).2.2.iov_base := by
  obtain ⟨s, e, a1, a2, a3, a4, a5⟩ :=
    carve_sim c rb rs v.1.iov_base v.2.iov_base mem hv.1 hv.2.1 hv.2.2
  have h2 : ¬ cnt < 2 := by omega
  refine ⟨_, by simp only [mem_limit_apply, h2, hb, if_false, e]; rfl, rfl, ?_, ?_, ?_, ?_, ?_⟩
  · simp only [a1]
  · simp only [ApplyResult.slot0, a2]
  · simp only [ApplyResult.slot1, a3]
  · simp only [ApplyResult.base0, ApplyResult.slot0, a4]
  · simp only [ApplyResult.base1, ApplyResult.slot1, a5]

/-! ## What a call with valid, separate pointers returns -/

namespace Values

/-- The values of slot 0 cover the kernel when the kernel base lies in the
range and the budget holds the kernel, or a ramdisk follows the kernel inside
the range, or there is no ramdisk and `kernel.end + range.size < 2^64`. -/
theorem carve_covers (c : mem_limit_cfg_t) (rb rs : Nat) (hc : cfg_wf c)
    (hb : c.memory_limit ≠ 0) (h1 : rb ≤ c.kernel_base) (h2 : c.kernel_base < rb + rs)
    (h3 : c.kernel_end ≤ rb + rs) (hnw : rb + rs < 2 ^ 64)
    (hfit : kernel_size c ≤ c.memory_limit ∨
      (c.kernel_base ≤ c.kernel_end ∧ c.ramdisk_sz ≠ 0 ∧ c.kernel_end ≤ c.ramdisk_base ∧
        c.ramdisk_base + c.ramdisk_sz ≤ rb + rs) ∨
      (c.kernel_base < c.kernel_end ∧ c.ramdisk_sz = 0 ∧ c.kernel_end + rs < 2 ^ 64)) :
    (carve c rb rs).2.1.iov_base ≤ c.kernel_base ∧
    c.kernel_end ≤ (carve c rb rs).2.1.iov_base + (carve c rb rs).2.1.iov_len := by
  by_cases hw : rs ≤ c.memory_limit
  · rw [carve_whole c rb rs hw]
    simp only
    omega
  · have hre : add64 rb rs = rb + rs := add64_of_lt _ _ hnw
    rw [carve_kernel_path c rb rs (by omega) h1 (by omega)]
    simp only
    by_cases hk : kernel_size c ≤ c.memory_limit
    · exact carve_kernel_covers c rb rs hc hb h1 h3 hnw (Or.inl hk)
    · rcases hfit with hf | hf | ⟨ho, hr0, hr1⟩
      · exact absurd hf hk
      · exact carve_kernel_covers c rb rs hc hb h1 h3 hnw (Or.inr hf)
      · obtain ⟨-, hke, hrdb, -, -⟩ := hc
        have hks : sub64 c.kernel_end c.kernel_base = c.kernel_end - c.kernel_base :=
          sub64_of_le _ _ hke (by omega)
        unfold kernel_size at hk
        rw [hks] at hk
        have hu := carve_kernel_underflow rb rs c.kernel_base c.kernel_end c.ramdisk_base
          c.ramdisk_sz c.memory_limit hrdb h1 ho h3 hnw (by omega) (by omega)
          (Or.inl ⟨hr0, hr1⟩)
        rw [hre, hks]
        exact ⟨hu.1, hu.2.1⟩

end Values

/-- One call whose budget is not zero and whose pointers are valid and separate,
or whose budget is zero and whose slot lengths are zero: if the budget holds
the kernel whenever the kernel path is taken, the call returns and the two
lengths and the budget left add up to the budget before. -/
theorem apply_budget (c : mem_limit_cfg_t) (rb rs : Nat) (v : iovec_t × iovec_t)
    (cnt : Nat) (mem : Memory) (hcnt : 2 ≤ cnt) (hc : cfg_wf c)
    (hz : (c.memory_limit ≠ 0 ∧ slots_valid mem v) ∨
      (c.memory_limit = 0 ∧ v.1.iov_len = 0 ∧ v.2.iov_len = 0))
    (hk : c.memory_limit ≠ 0 → c.memory_limit < rs → rb ≤ c.kernel_base →
      c.kernel_base < rb + rs → kernel_size c ≤ c.memory_limit) :
    ∃ r, mem_limit_apply (some c) rb rs (some v) cnt mem = some r ∧
      r.slot0.iov_len + r.slot1.iov_len + r.budget = c.memory_limit := by
  rcases hz with ⟨hb, hv⟩ | ⟨hb, hl0, hl1⟩
  · obtain ⟨r, e, -, a2, a3, a4, -, -⟩ := apply_valid c rb rs v cnt mem hcnt hb hv
    refine ⟨r, e, ?_⟩
    have hbud := Values.carve_budget c rb rs hc (hk hb)
    simp only [a3, a4, ApplyResult.budget, a2]
    exact hbud
  · refine ⟨_, apply_zero c rb rs v cnt mem hcnt hb, ?_⟩
    simp only [ApplyResult.slot0, ApplyResult.slot1, ApplyResult.budget, hl0, hl1, hb]

/-- A call for which the whole range fits returns, if it returns, with the
length of the range in `iovs[0].iov_len`, whatever the pointers are. -/
theorem apply_whole_len (c : mem_limit_cfg_t) (rb rs : Nat) (v : iovec_t × iovec_t)
    (cnt : Nat) (mem : Memory) (hcnt : 2 ≤ cnt) (hb : c.memory_limit ≠ 0)
    (hw : rs ≤ c.memory_limit) :
    mem_limit_apply (some c) rb rs (some v) cnt mem = none ∨
    ∃ r, mem_limit_apply (some c) rb rs (some v) cnt mem = some r ∧
      r.status = .NO_ERROR ∧ r.slot0.iov_len = rs := by
  have h2 : ¬ cnt < 2 := by omega
  simp only [mem_limit_apply, h2, hb, if_false, carve, hw, if_true]
  cases IoVectorWrapper mem v.1.iov_base with
  | none => exact Or.inl rfl
  | some m1 =>
    simp only
    cases IoVectorWrapper m1 v.2.iov_base with
    | none => exact Or.inl rfl
    | some m2 =>
      simp only
      cases m2.store v.1.iov_base rb with
      | none => exact Or.inl rfl
      | some m3 => exact Or.inr ⟨_, rfl, rfl, rfl⟩

/-! ## The claims -/

/-- C1, evaluated on a boot loop that hands every call two zeroed slots, so
`iov_base` is the null pointer: with a limit of 100, the kernel at `[150,160)`,
the ramdisk at `[170,180)` and the ranges `[0,40)`, `[100,200)`, `[300,400)`,
the first call already dereferences the null pointer in the wrapper constructor
and faults; the loop returns no sum. With the two slots pointing at two valid
words the same loop returns and admits exactly 100 bytes. -/
theorem boot_loop_faults_on_zeroed_slots :
    mem_limit_apply (some ⟨150, 160, 170, 10, 100⟩) 0 40 (some (zero_iov, zero_iov)) 2
      two_words = none ∧
    apply_ranges (zero_iov, zero_iov) [(0, 40), (100, 100), (300, 100)] two_words
      ⟨150, 160, 170, 10, 100⟩ = none ∧
    apply_ranges word_slots [(0, 40), (100, 100), (300, 100)] two_words
      ⟨150, 160, 170, 10, 100⟩ = some (⟨150, 160, 170, 10, 0⟩, 100) := by
  decide

/-- C3, evaluated on the constrained carve with the kernel `[150,160)` in the
range `[100,200)`, no ramdisk and a budget of 5. From zeroed slots the wrapper
constructor dereferences the null `iov_base` and the call faults. With the slots
pointing at two valid words the call returns, but `iovs[0].iov_base` is still
the caller's pointer 4096, not a base at or below `kernel.base`: the base 100 is
stored in the word behind the pointer. -/
theorem constrained_carve_faults_on_zeroed_slots :
    mem_limit_apply (some ⟨150, 160, 0, 0, 5⟩) 100 100 (some (zero_iov, zero_iov)) 2
      two_words = none ∧
    mem_limit_apply (some ⟨150, 160, 0, 0, 5⟩) 100 100 (some word_slots) 2 two_words
      = some ⟨.NO_ERROR, some ⟨150, 160, 0, 0, 2 ^ 64 - 255⟩,
          some (⟨4096, 260⟩, ⟨4104, 0⟩), ⟨[(4096, 100), (4104, 0)]⟩⟩ ∧
    ¬ ((⟨4096, 260⟩ : iovec_t).iov_base ≤ 150) := by
  decide

/-- C4, evaluated on a range that fits: budget 100, range `[100,140)`. From
zeroed slots the wrapper constructor dereferences the null `iov_base` and the
call faults. With the slots pointing at two valid words the call returns with
the budget reduced to 60 and `iovs[0].iov_len = 40`, but slot 0 is
`{4096, 40}`, not `{range.base, range.size}`: the base is stored in the word
behind the pointer. -/
theorem whole_range_faults_on_zeroed_slots :
    mem_limit_apply (some ⟨150, 160, 0, 0, 100⟩) 100 40 (some (zero_iov, zero_iov)) 2
      two_words = none ∧
    mem_limit_apply (some ⟨150, 160, 0, 0, 100⟩) 100 40 (some word_slots) 2 two_words
      = some ⟨.NO_ERROR, some ⟨150, 160, 0, 0, 60⟩,
          some (⟨4096, 40⟩, ⟨4104, 0⟩), ⟨[(4096, 100), (4104, 0)]⟩⟩ ∧
    (⟨4096, 40⟩ : iovec_t) ≠ ⟨100, 40⟩ := by
  decide

/-- C5, evaluated with a budget of zero and slots that hold earlier values,
whatever the memory is: the call returns `NO_ERROR` at line 90, before the
slots are wrapped, so both slots come back with their earlier contents instead
of `{0, 0}`, and the memory is untouched. -/
theorem exhausted_budget_keeps_stale_slots (mem : Memory) :
    mem_limit_apply (some ⟨150, 160, 0, 0, 0⟩) 100 100
        (some (⟨4096, 8192⟩, ⟨65536, 16⟩)) 2 mem
      = some ⟨.NO_ERROR, some ⟨150, 160, 0, 0, 0⟩,
          some (⟨4096, 8192⟩, ⟨65536, 16⟩), mem⟩ ∧
    (⟨4096, 8192⟩ : iovec_t) ≠ ⟨0, 0⟩ ∧ (⟨65536, 16⟩ : iovec_t) ≠ ⟨0, 0⟩ := by
  refine ⟨?_, by decide, by decide⟩
  exact apply_zero ⟨150, 160, 0, 0, 0⟩ 100 100 (⟨4096, 8192⟩, ⟨65536, 16⟩) 2 mem
    (by decide) rfl

/-- C6, evaluated on the input of the test `ml_kernel_eor` (base 0, size
128 MiB, kernel size 2 MiB, limit 256 MiB) for every content `v` of the
uninitialised slot array and every memory: either the wrapper constructor
faults on `iov_base`, or the call returns `NO_ERROR` with
`iovs[0].iov_len = 128 MiB`, which is not the `k_size = 2 MiB` that
`EXPECT_EQ(vecs[0].iov_len, k_size)` asks for. -/
theorem ml_kernel_eor_check_size_fails (v : iovec_t × iovec_t) (mem : Memory) :
    mem_limit_apply (some ⟨(0 + 128 * MB) - 2 * MB, 0 + 128 * MB, 0, 0, 256 * MB⟩)
        0 (128 * MB) (some v) 2 mem = none ∨
    ∃ r, mem_limit_apply (some ⟨(0 + 128 * MB) - 2 * MB, 0 + 128 * MB, 0, 0, 256 * MB⟩)
        0 (128 * MB) (some v) 2 mem = some r ∧
      r.status = .NO_ERROR ∧ r.slot0.iov_len = 128 * MB ∧ r.slot0.iov_len ≠ 2 * MB := by
  rcases apply_whole_len ⟨(0 + 128 * MB) - 2 * MB, 0 + 128 * MB, 0, 0, 256 * MB⟩
      0 (128 * MB) v 2 mem (by decide) (by decide) (by decide) with h | ⟨r, e, hs, hl⟩
  · exact Or.inl h
  · refine Or.inr ⟨r, e, hs, hl, ?_⟩
    rw [hl]
    decide

/-- C7, evaluated without a ramdisk, the slots pointing at two valid words:
kernel `[150,160)` in the range `[100,200)`, budget 90. The claim gives
`k_high = 40`, `g = 40`, `l = 40` and slot 0 = `{110, 90}`; the code takes
`k_high = range_end = 200`, grows forward by 80 and stores the base 150 behind
`iovs[0].iov_base`, with length 90 and budget 0. -/
theorem no_ramdisk_k_high_is_range_end :
    mem_limit_apply (some ⟨150, 160, 0, 0, 90⟩) 100 100 (some word_slots) 2 two_words
      = some ⟨.NO_ERROR, some ⟨150, 160, 0, 0, 0⟩,
          some (⟨4096, 90⟩, ⟨4104, 0⟩), ⟨[(4096, 150), (4104, 0)]⟩⟩ ∧
    min (90 - 10) (200 - 160) = 40 ∧ min (90 - 10 - 40) (150 - 100) = 40 ∧
    (150 : Nat) ≠ 150 - 40 := by
  decide

/-- C8, evaluated without a ramdisk, the slots pointing at two valid words:
kernel `[1200,1300)` in the range `[1000,2000)`, budget 900. The call stores
the base 1200 behind `iovs[0].iov_base` with length 900, so the accepted range
`[1200,2100)` ends 100 bytes past the end of the range. -/
theorem slot_exceeds_range_without_ramdisk :
    mem_limit_apply (some ⟨1200, 1300, 0, 0, 900⟩) 1000 1000 (some word_slots) 2 two_words
      = some ⟨.NO_ERROR, some ⟨1200, 1300, 0, 0, 0⟩,
          some (⟨4096, 900⟩, ⟨4104, 0⟩), ⟨[(4096, 1200), (4104, 0)]⟩⟩ ∧
    ¬ (1200 + 900 ≤ 1000 + 1000) := by
  decide

/-- C9, evaluated on a constrained carve with a ramdisk: kernel `[150,160)`,
ramdisk `[170,180)`, range `[100,200)`, budget 45. From zeroed slots the
wrapper constructor dereferences the null `iov_base` and the call faults. With
the slots pointing at two valid words the call returns with the lengths 45 and
0 and the budget 0 that the claim gives, but slot 0 is `{4096, 45}`, not
`{135, 45}`, and slot 1 is `{4104, 0}`, not `{0, 0}`: the bases 135 and 0 are
stored in the words behind the pointers. -/
theorem carve_with_ramdisk_faults_on_zeroed_slots :
    mem_limit_apply (some ⟨150, 160, 170, 10, 45⟩) 100 100 (some (zero_iov, zero_iov)) 2
      two_words = none ∧
    mem_limit_apply (some ⟨150, 160, 170, 10, 45⟩) 100 100 (some word_slots) 2 two_words
      = some ⟨.NO_ERROR, some ⟨150, 160, 170, 10, 0⟩,
          some (⟨4096, 45⟩, ⟨4104, 0⟩), ⟨[(4096, 135), (4104, 0)]⟩⟩ ∧
    (⟨4096, 45⟩ : iovec_t) ≠ ⟨135, 45⟩ ∧ (⟨4104, 0⟩ : iovec_t) ≠ ⟨0, 0⟩ := by
  decide

/-- C10, evaluated on a constrained carve that reaches past the ramdisk:
kernel `[150,160)`, ramdisk `[170,180)`, range `[100,200)`, budget 95. From
zeroed slots the wrapper constructor dereferences the null `iov_base` and the
call faults. With the slots pointing at two valid words the call returns with
slot 0 = `{4096, 95}`: bytes above the ramdisk's end are admitted while
`iovs[0].iov_base` is the caller's pointer, not `range.base`; the base 100 is
stored in the word behind the pointer. -/
theorem growth_precedence_faults_on_zeroed_slots :
    mem_limit_apply (some ⟨150, 160, 170, 10, 95⟩) 100 100 (some (zero_iov, zero_iov)) 2
      two_words = none ∧
    mem_limit_apply (some ⟨150, 160, 170, 10, 95⟩) 100 100 (some word_slots) 2 two_words
      = some ⟨.NO_ERROR, some ⟨150, 160, 170, 10, 0⟩,
          some (⟨4096, 95⟩, ⟨4104, 0⟩), ⟨[(4096, 100), (4104, 0)]⟩⟩ ∧
    (170 + 10 < 100 + 95 ∧ (⟨4096, 95⟩ : iovec_t).iov_base ≠ 100) := by
  decide

/-- C11, evaluated with the ramdisk `[160,170)` right after the kernel
`[150,160)`, range `[100,200)`, budget 45. From zeroed slots the wrapper
constructor dereferences the null `iov_base` and the call faults. With both
`iov_base` pointing at the same word the ramdisk base overwrites the kernel
base, the backward growth moves it to 135, the comparison `135 + 10 == 135`
of line 191 fails, and the call returns the kernel range of length 35 and the
ramdisk range of length 10 unmerged. With two separate words the ranges are
merged into one of length 45 at base 125. -/
theorem merge_missed_on_shared_word :
    mem_limit_apply (some ⟨150, 160, 160, 10, 45⟩) 100 100 (some (zero_iov, zero_iov)) 2
      two_words = none ∧
    mem_limit_apply (some ⟨150, 160, 160, 10, 45⟩) 100 100
        (some (⟨4096, 0⟩, ⟨4096, 0⟩)) 2 two_words
      = some ⟨.NO_ERROR, some ⟨150, 160, 160, 10, 0⟩,
          some (⟨4096, 35⟩, ⟨4096, 10⟩), ⟨[(4096, 135), (4104, 0)]⟩⟩ ∧
    mem_limit_apply (some ⟨150, 160, 160, 10, 45⟩) 100 100 (some word_slots) 2 two_words
      = some ⟨.NO_ERROR, some ⟨150, 160, 160, 10, 0⟩,
          some (⟨4096, 45⟩, ⟨4104, 0⟩), ⟨[(4096, 125), (4104, 0)]⟩⟩ := by
  decide

/-- C14, evaluated with the kernel `[500,510)` outside the range `[100,200)`
and a budget of 25. From zeroed slots the wrapper constructor dereferences the
null `iov_base` and the call faults. With the slots pointing at two valid words
the call returns with length 25 and budget 0, but slot 0 is `{4096, 25}`, not
`{range.base, 25}`: the base 100 is stored in the word behind the pointer. -/
theorem no_kernel_in_range_faults_on_zeroed_slots :
    mem_limit_apply (some ⟨500, 510, 170, 10, 25⟩) 100 100 (some (zero_iov, zero_iov)) 2
      two_words = none ∧
    mem_limit_apply (some ⟨500, 510, 170, 10, 25⟩) 100 100 (some word_slots) 2 two_words
      = some ⟨.NO_ERROR, some ⟨500, 510, 170, 10, 0⟩,
          some (⟨4096, 25⟩, ⟨4104, 0⟩), ⟨[(4096, 100), (4104, 0)]⟩⟩ ∧
    (⟨4096, 25⟩ : iovec_t) ≠ ⟨100, 25⟩ := by
  decide

/-- C16. Undersized output container is rejected atomically: for every call of
`mem_limit_apply` with `iov_cnt < 2`, a null `cfg` or a null `iovs`, whatever
the memory holds, the call returns `ERR_INVALID_ARGS` and leaves the
configuration (and with it the remaining budget), every output slot and the
memory exactly as they were. -/
theorem invalid_args_rejected (cfg : Option mem_limit_cfg_t) (rb rs : Nat)
    (iovs : Option (iovec_t × iovec_t)) (cnt : Nat) (mem : Memory)
    (h : cfg = none ∨ iovs = none ∨ cnt < 2) :
    mem_limit_apply cfg rb rs iovs cnt mem = some ⟨.ERR_INVALID_ARGS, cfg, iovs, mem⟩ := by
  cases cfg with
  | none => rfl
  | some c =>
    cases iovs with
    | none => rfl
    | some v =>
      have hc : cnt < 2 := by
        rcases h with h | h | h
        · exact absurd h (by simp)
        · exact absurd h (by simp)
        · exact h
      simp [mem_limit_apply, hc]

/-- C16 on a concrete call with `iov_cnt = 1`, a budget of 25 and slots that
hold the stale values `{7, 7}` and `{8, 8}`. -/
theorem invalid_args_rejected_witness :
    mem_limit_apply (some ⟨150, 160, 170, 10, 25⟩) 100 100 (some (⟨7, 7⟩, ⟨8, 8⟩)) 1
        two_words
      = some ⟨.ERR_INVALID_ARGS, some ⟨150, 160, 170, 10, 25⟩, some (⟨7, 7⟩, ⟨8, 8⟩),
          two_words⟩ :=
  invalid_args_rejected (some ⟨150, 160, 170, 10, 25⟩) 100 100 (some (⟨7, 7⟩, ⟨8, 8⟩)) 1
    two_words (by decide)

/-- C17, evaluated on Scenario C: range `[0, 128 MiB)`, kernel
`[126 MiB, 128 MiB)`, no ramdisk, budget 1 MiB. From zeroed slots the wrapper
constructor dereferences the null `iov_base` and the call faults, so there is
no budget after the call. With the slots pointing at two valid words the call
returns with the wrapped budget `2^64 - 255 MiB`, which is
`(1 MiB - 256 MiB) mod 2^64` and larger than 1 MiB. -/
theorem scenario_c_faults_on_zeroed_slots :
    mem_limit_apply (some ⟨126 * MB, 128 * MB, 0, 0, 1 * MB⟩) 0 (128 * MB)
        (some (zero_iov, zero_iov)) 2 two_words = none ∧
    mem_limit_apply (some ⟨126 * MB, 128 * MB, 0, 0, 1 * MB⟩) 0 (128 * MB)
        (some word_slots) 2 two_words
      = some ⟨.NO_ERROR, some ⟨126 * MB, 128 * MB, 0, 0, sub64 (1 * MB) (256 * MB + 0)⟩,
          some (⟨4096, 256 * MB⟩, ⟨4104, 0⟩), ⟨[(4096, 0), (4104, 0)]⟩⟩ ∧
    1 * MB < sub64 (1 * MB) (256 * MB + 0) := by
  decide

/-- C19, as stated, fails: for the configuration with `kernel_base = 160` and
`kernel_end = 150` and a configured limit of 100, `mem_limit_init` returns
`NO_ERROR` and stores the limit. -/
theorem init_accepts_malformed_kernel :
    (160 ≥ 150) ∧
    (mem_limit_init 100 (some ⟨160, 150, 0, 0, 0⟩)).1 ≠ .ERR_INVALID_ARGS ∧
    mem_limit_init 100 (some ⟨160, 150, 0, 0, 0⟩)
      = (.NO_ERROR, some ⟨160, 150, 0, 0, 100⟩) := by
  decide

/-- C19, amended. Initialisation does not look at the kernel bounds: for every
non-null configuration, whatever `kernel_base` and `kernel_end` are, and every
value `v` returned by the command-line lookup, `mem_limit_init` returns
`ERR_NOT_SUPPORTED` and leaves the configuration unchanged when `v = 0`, and
returns `NO_ERROR` with `memory_limit` set to `v` otherwise; it returns
`ERR_INVALID_ARGS` for a null configuration. -/
theorem init_does_not_validate (v : Nat) (c : mem_limit_cfg_t) :
    mem_limit_init v (some c)
      = (if v = 0 then (.ERR_NOT_SUPPORTED, some c)
          else (.NO_ERROR, some { c with memory_limit := v })) ∧
    mem_limit_init v none = (.ERR_INVALID_ARGS, none) := by
  refine ⟨?_, rfl⟩
  by_cases hv : v = 0
  · simp [mem_limit_init, mem_limit_get, hv]
  · simp [mem_limit_init, mem_limit_get, hv]

/-- C20. Limit lookup: with `v` the command-line value of
`"kernel.memory-limit"` (0 when absent) and a valid out-pointer holding `old`,
`mem_limit_get` returns `NO_ERROR` and stores `v` when `v != 0`, and returns
`ERR_NOT_SUPPORTED` leaving `old` in place when `v = 0`; so it returns
`NO_ERROR` if and only if `v != 0`. -/
theorem limit_lookup (v old : Nat) :
    mem_limit_get v (some old)
      = (if v = 0 then (.ERR_NOT_SUPPORTED, some old) else (.NO_ERROR, some v)) ∧
    ((mem_limit_get v (some old)).1 = .NO_ERROR ↔ v ≠ 0) ∧
    (mem_limit_get v (some old) = (.NO_ERROR, some v) ↔ v ≠ 0) := by
  by_cases hv : v = 0
  · simp [mem_limit_get, hv]
  · simp [mem_limit_get, hv]

/-- C21, evaluated with the budget used up exactly by the kernel, the slots
pointing at two valid words: kernel `[150,160)`, ramdisk `[170,180)`, range
`[100,200)`, budget 10. The ramdisk receives `tmp = 0` bytes, yet line 152
stores its base: the call returns `iovs[1].iov_len = 0` with the base 170, not
0, behind `iovs[1].iov_base`. -/
theorem empty_ramdisk_slot_keeps_base :
    mem_limit_apply (some ⟨150, 160, 170, 10, 10⟩) 100 100 (some word_slots) 2 two_words
      = some ⟨.NO_ERROR, some ⟨150, 160, 170, 10, 0⟩,
          some (⟨4096, 10⟩, ⟨4104, 0⟩), ⟨[(4096, 150), (4104, 170)]⟩⟩ ∧
    (170 : Nat) ≠ 0 := by
  decide

/-- C22, evaluated on a truncated ramdisk: kernel `[150,160)`, ramdisk
`[170,180)`, range `[100,200)`, budget 15. From zeroed slots the wrapper
constructor dereferences the null `iov_base` and the call faults. With the
slots pointing at two valid words the call returns with the lengths 10 and 5
and the budget 0 that the claim gives, but slot 0 is `{4096, 10}`, not
`{kernel.base, 10}`, and slot 1 is `{4104, 5}`, not `{ramdisk.base, 5}`: the
bases 150 and 170 are stored in the words behind the pointers. -/
theorem truncated_ramdisk_faults_on_zeroed_slots :
    mem_limit_apply (some ⟨150, 160, 170, 10, 15⟩) 100 100 (some (zero_iov, zero_iov)) 2
      two_words = none ∧
    mem_limit_apply (some ⟨150, 160, 170, 10, 15⟩) 100 100 (some word_slots) 2 two_words
      = some ⟨.NO_ERROR, some ⟨150, 160, 170, 10, 0⟩,
          some (⟨4096, 10⟩, ⟨4104, 5⟩), ⟨[(4096, 150), (4104, 170)]⟩⟩ ∧
    (⟨4096, 10⟩ : iovec_t) ≠ ⟨150, 10⟩ ∧ (⟨4104, 5⟩ : iovec_t) ≠ ⟨170, 5⟩ := by
  decide

end MemoryLimit
